import Mathlib

/-!
Shallow embedding of the tribd MPEG-TS multiplexing daemon, checked against
its natural-language specification.

Conventions of the embedding:
* Go byte arrays and slices become lists of naturals (each element < 256);
  an EncodedPacket is a 188-element list.
* Go machine integers become Nat or Int with explicit reductions mod 2^w
  where overflow can matter (uint64 stores, int64 wrap in the PID controller).
* A Go operation that can panic at runtime (slice bounds, index out of
  range, closing a closed channel) is modelled with an Option or an explicit
  panic-style constructor: the none / panicked value means the Go code faults.
* Go integer division on int truncates toward zero, so it is modelled with
  Int.tdiv; Nat division matches Go uint64 division directly.
-/

/-! ## MPEG-TS packet codec (src/mpegts/packets.go) -/

/-- A raw 188-byte MPEG-TS packet, as a list of byte values. -/
abbrev EncodedPacket := List Nat

/-- Well-formedness of a packet value: 188 bytes, each below 256. -/
def EncodedPacket.WF (ep : EncodedPacket) : Prop :=
  ep.length = 188 ∧ ∀ b ∈ ep, b < 256

/-- GetAFC: adaptation field control, bits 5-4 of byte 3 ((ep[3] >> 4) & 0x03). -/
def EncodedPacket.GetAFC (ep : EncodedPacket) : Nat :=
  ep.getD 3 0 / 16 % 4

/-- Big-endian read of 8 bytes starting at off (binary.BigEndian.Uint64). -/
def uint64BE (ep : EncodedPacket) (off : Nat) : Nat :=
  ep.getD off 0 * 2 ^ 56 + ep.getD (off + 1) 0 * 2 ^ 48 +
  ep.getD (off + 2) 0 * 2 ^ 40 + ep.getD (off + 3) 0 * 2 ^ 32 +
  ep.getD (off + 4) 0 * 2 ^ 24 + ep.getD (off + 5) 0 * 2 ^ 16 +
  ep.getD (off + 6) 0 * 2 ^ 8 + ep.getD (off + 7) 0

/-- Big-endian write of the 8 bytes of v starting at off
(binary.BigEndian.PutUint64). -/
def putUint64BE (ep : EncodedPacket) (off : Nat) (v : Nat) : EncodedPacket :=
  ((((((((ep.set off (v / 2 ^ 56 % 256)).set (off + 1) (v / 2 ^ 48 % 256)).set
    (off + 2) (v / 2 ^ 40 % 256)).set (off + 3) (v / 2 ^ 32 % 256)).set
    (off + 4) (v / 2 ^ 24 % 256)).set (off + 5) (v / 2 ^ 16 % 256)).set
    (off + 6) (v / 2 ^ 8 % 256)).set (off + 7) (v % 256))

/-- GetPayload.  In the source, when AFC = 0b01 it slices ep[5 : 5+ep[4]];
that slice expression panics when 5 + ep[4] > 188, which the model reports
as none.  Otherwise it returns ep[4:]. -/
def EncodedPacket.GetPayload (ep : EncodedPacket) : Option (List Nat) :=
  if ep.GetAFC = 1 then
    let length := ep.getD 4 0
    if 5 + length ≤ 188 then some ((ep.drop 5).take length) else none
  else
    some (ep.drop 4)

/-- GetAdaptationField: when AFC indicates an adaptation field it slices
ep[5 : 5+ep[4]] (none models the Go bounds panic when 5 + ep[4] > 188);
otherwise the source returns nil, modelled as some []. -/
def EncodedPacket.GetAdaptationField (ep : EncodedPacket) : Option (List Nat) :=
  if ep.GetAFC = 2 ∨ ep.GetAFC = 3 then
    let length := ep.getD 4 0
    if 5 + length ≤ 188 then some ((ep.drop 5).take length) else none
  else
    some []

/-- GetTransportPrivateData: when AFC = 0b11 it slices ep[23 : 23+ep[22]]
(none models the Go bounds panic when 23 + ep[22] > 188); otherwise nil. -/
def EncodedPacket.GetTransportPrivateData (ep : EncodedPacket) :
    Option (List Nat) :=
  if ep.GetAFC = 3 then
    let length := ep.getD 22 0
    if 23 + length ≤ 188 then some ((ep.drop 23).take length) else none
  else
    some []

/-- GetPCR (method): when AFC indicates an adaptation field, read bytes
5..12 as a big-endian 64-bit value masked with 0x1FFFFFFFFFFFF (49 bits);
otherwise 0. -/
def EncodedPacket.GetPCR (ep : EncodedPacket) : Nat :=
  if ep.GetAFC = 2 ∨ ep.GetAFC = 3 then uint64BE ep 5 % 2 ^ 49 else 0

/-- SetPCR (method): when AFC indicates an adaptation field, store the raw
64-bit pcr big-endian into bytes 5..12; otherwise do nothing. -/
def EncodedPacket.SetPCR (ep : EncodedPacket) (pcr : Nat) : EncodedPacket :=
  if ep.GetAFC = 2 ∨ ep.GetAFC = 3 then putUint64BE ep 5 (pcr % 2 ^ 64) else ep

/-- SetOPCR: guarded by AFC = 0b11, stores the raw 64-bit value at bytes
13..20. -/
def EncodedPacket.SetOPCR (ep : EncodedPacket) (opcr : Nat) : EncodedPacket :=
  if ep.GetAFC = 3 then putUint64BE ep 13 (opcr % 2 ^ 64) else ep

/-- SetSpliceCountdown: guarded by AFC = 0b11, writes byte 21. -/
def EncodedPacket.SetSpliceCountdown (ep : EncodedPacket) (sc : Nat) :
    EncodedPacket :=
  if ep.GetAFC = 3 then ep.set 21 (sc % 256) else ep

/-- Go copy(dst, src) where dst is the suffix of ep starting at off: copies
src bytes one at a time while the destination index stays inside ep. -/
def copyInto (ep : EncodedPacket) (off : Nat) : List Nat → EncodedPacket
  | [] => ep
  | b :: rest =>
      if off < ep.length then copyInto (ep.set off b) (off + 1) rest else ep

/-- SetAdaptationField: guarded by AFC ∈ {0b10, 0b11}; writes the length
byte at index 4 then copies the field starting at byte 5. -/
def EncodedPacket.SetAdaptationField (ep : EncodedPacket) (af : List Nat) :
    EncodedPacket :=
  if ep.GetAFC = 2 ∨ ep.GetAFC = 3 then
    copyInto (ep.set 4 (af.length % 256)) 5 af
  else ep

/-- SetTransportPrivateData: guarded by AFC = 0b11; writes the length byte
at index 22 then copies the data starting at byte 23. -/
def EncodedPacket.SetTransportPrivateData (ep : EncodedPacket)
    (tpd : List Nat) : EncodedPacket :=
  if ep.GetAFC = 3 then
    copyInto (ep.set 22 (tpd.length % 256)) 23 tpd
  else ep

/-- Package-level SetPCR(packet, pcr, pcrFrequency): splits pcr into
base = pcr / frequency and ext = pcr % frequency, ORs 0x10 into byte 4
(adaptationFieldStart), and writes the six PCR bytes at offsets 5..10.
Byte values are truncated mod 256 as Go byte conversions do; the shifted
base is reduced mod 2^64 as the uint64 arithmetic does. -/
def SetPCR (packet : EncodedPacket) (pcr pcrFrequency : Nat) : EncodedPacket :=
  let pcrBase := pcr / pcrFrequency
  let pcrExt := pcr % pcrFrequency
  (((((((packet.set 4 (Nat.lor (packet.getD 4 0) 0x10)).set
    5 (pcrBase / 2 ^ 25 % 256)).set
    6 (pcrBase / 2 ^ 17 % 256)).set
    7 (pcrBase / 2 ^ 9 % 256)).set
    8 (pcrBase / 2 % 256)).set
    9 (Nat.lor (pcrBase * 2 ^ 7 % 2 ^ 64) (Nat.land (pcrExt / 2 ^ 8) 0x7F) % 256)).set
    10 (pcrExt % 256))

/-! ## DWRR scheduler (src/dwrr/dwrr.go) -/

/-- Scheduler state: parallel lists of quantums and queues plus the global
maxTake bound (mutex elided; every operation is atomic under it). -/
structure DWRR (T : Type) where
  quantums : List Nat
  queues : List (List T)
  maxTake : Nat
  deriving DecidableEq

/-- NewDWRR(count, maxTake): count empty queues, all quantums 1. -/
def NewDWRR (T : Type) (count maxTake : Nat) : DWRR T :=
  { quantums := List.replicate count 1
    queues := List.replicate count []
    maxTake := maxTake }

/-- Enqueue(queue, items): append the items, then set the quantum to the new
queue length. -/
def DWRR.Enqueue (d : DWRR T) (queue : Nat) (items : List T) : DWRR T :=
  let q := d.queues.getD queue [] ++ items
  { d with queues := d.queues.set queue q, quantums := d.quantums.set queue q.length }

/-- One iteration of the loop body of Do() for a single queue: an empty
queue gets quantum 1 and an empty slot; otherwise split is quantum capped
by the queue length and maxTake, the first split items are extracted and
the quantum becomes the remaining length.  Returns (slot, new quantum, new
queue). -/
def doStep (maxTake quantum : Nat) (queue : List T) : List T × Nat × List T :=
  if queue.isEmpty then ([], 1, queue)
  else
    let split := min (min quantum queue.length) maxTake
    (queue.take split, queue.length - split, queue.drop split)

/-- Do(): process every queue in index order with doStep; returns the slots
and the updated scheduler. -/
def DWRR.Do (d : DWRR T) : List (List T) × DWRR T :=
  let z := (d.quantums.zip d.queues).map fun x => doStep d.maxTake x.1 x.2
  (z.map fun x => x.1,
   { d with quantums := z.map fun x => x.2.1, queues := z.map fun x => x.2.2 })

/-- A trace operation on the scheduler: an Enqueue or a Do() call. -/
inductive DwrrOp (T : Type) where
  | enq (queue : Nat) (items : List T)
  | step
  deriving DecidableEq

/-- Run a list of operations from a starting state. -/
def runOps (d : DWRR T) : List (DwrrOp T) → DWRR T
  | [] => d
  | .enq j xs :: rest => runOps (d.Enqueue j xs) rest
  | .step :: rest => runOps d.Do.2 rest

/-- Concatenation, over a list of operations, of the items each Do() call
returns for queue index i. -/
def returnedAt (i : Nat) (d : DWRR T) : List (DwrrOp T) → List T
  | [] => []
  | .enq j xs :: rest => returnedAt i (d.Enqueue j xs) rest
  | .step :: rest => d.Do.1.getD i [] ++ returnedAt i d.Do.2 rest

/-- Concatenation of the items the trace enqueues to queue index i. -/
def enqueuedAt (i : Nat) : List (DwrrOp T) → List T
  | [] => []
  | .enq j xs :: rest => (if j = i then xs else []) ++ enqueuedAt i rest
  | .step :: rest => enqueuedAt i rest

/-- An operation is well formed when its queue index is in range (the Go
code would panic on an out-of-range Enqueue index). -/
def DwrrOp.WF (count : Nat) : DwrrOp T → Prop
  | .enq j _ => j < count
  | .step => True

instance (count : Nat) (op : DwrrOp T) : Decidable (op.WF count) := by
  cases op <;> simp [DwrrOp.WF] <;> infer_instance

/-! ## PLL PID controller (src/unnamed/part_006, package pll) -/

/-- PLL state relevant to the PID controller.  period and delay are Go
time.Duration values (int64 nanoseconds); kp, ki, kd, integral and
lastDelta are Go int (64-bit). -/
structure PLLState where
  period : Int
  delay : Int
  kp : Int
  ki : Int
  kd : Int
  integral : Int
  lastDelta : Int
  deriving DecidableEq

/-- Wrap of Go 64-bit signed arithmetic: reduce into [-2^63, 2^63). -/
def w64 (x : Int) : Int := (x + 2 ^ 63) % 2 ^ 64 - 2 ^ 63

/-- pidController(delta): integer PID update with gains over 100, Go int64
semantics (products and sums wrap, division truncates toward zero), and a
final clamp of the delay into [0, period] (upper clamp first, then lower). -/
def pidController (pll : PLLState) (delta : Int) : PLLState :=
  let porportional := (w64 (delta * pll.kp)).tdiv 100
  let integral := w64 (pll.integral + (w64 (delta * pll.ki)).tdiv 100)
  let derivative := (w64 (w64 (delta - pll.lastDelta) * pll.kd)).tdiv 100
  let delay0 := w64 (pll.delay - w64 (w64 (porportional + integral) + derivative))
  let delay1 := if delay0 > pll.period then pll.period else delay0
  let delay2 := if delay1 < 0 then 0 else delay1
  { pll with integral := integral, lastDelta := delta, delay := delay2 }

/-- Runtime channel/ticker state of the PLL used by Stop(). -/
structure PLLChans where
  eventClosed : Bool
  triggerClosed : Bool
  tickerRunning : Bool
  deriving DecidableEq

/-- The channel state right after NewPLL: both channels open, ticker running. -/
def newPLLChans : PLLChans :=
  { eventClosed := false, triggerClosed := false, tickerRunning := true }

/-- Stop(): ticker.Stop(), then close(EventCh), then close(TriggerCh).
Closing an already-closed Go channel panics, modelled as the error case. -/
def PLLStop (s : PLLChans) : Except Unit PLLChans :=
  let s1 := { s with tickerRunning := false }
  if s1.eventClosed then .error ()
  else
    let s2 := { s1 with eventClosed := true }
    if s2.triggerClosed then .error ()
    else .ok { s2 with triggerClosed := true }

/-! ## Packet channel (src/channels/channels.go) -/

/-- Result of PacketChan.Send. -/
inductive SendResult where
  | ok
  | channelClosed
  | bufferFull
  deriving DecidableEq

/-- Result of PacketChan.Receive: a value, the closed-and-drained nil
return, or a blocked receive (channel open and empty). -/
inductive RecvResult (α : Type) where
  | ready (a : α)
  | closedEmpty
  | blocked
  deriving DecidableEq

/-- PacketChan state: closed flag, buffered queue of packet contents, the
channel capacity, and the number of free buffers in the pool. -/
structure PacketChanState where
  closed : Bool
  queue : List (List Nat)
  capacity : Nat
  pool : Nat
  deriving DecidableEq

/-- sync.Pool Get: take a free buffer if one exists, else allocate a fresh
one (the pool count just drops to zero). -/
def poolGet (n : Nat) : Nat := n - 1

/-- sync.Pool Put: return a buffer to the free list. -/
def poolPut (n : Nat) : Nat := n + 1

/-- NewPacketChan(size): open channel with the given capacity and an empty
pool. -/
def NewPacketChan (size : Nat) : PacketChanState :=
  { closed := false, queue := [], capacity := size, pool := 0 }

/-- Send(data): acquire a pooled buffer and copy data in; if the channel is
closed, release the buffer and fail with channelClosed; if the buffered
channel is full (non-blocking send hits default), release the buffer and
fail with bufferFull; otherwise the buffer enters the channel. -/
def PacketChanState.Send (s : PacketChanState) (data : List Nat) :
    SendResult × PacketChanState :=
  let pool1 := poolGet s.pool
  if s.closed then
    (.channelClosed, { s with pool := poolPut pool1 })
  else if s.queue.length = s.capacity then
    (.bufferFull, { s with pool := poolPut pool1 })
  else
    (.ok, { s with queue := s.queue ++ [data], pool := pool1 })

/-- Receive(): a buffered item is delivered even after Close (its buffer
returns to the pool); an empty closed channel yields the nil return;
an empty open channel blocks. -/
def PacketChanState.Receive (s : PacketChanState) :
    RecvResult (List Nat) × PacketChanState :=
  match s.queue with
  | d :: rest => (.ready d, { s with queue := rest, pool := poolPut s.pool })
  | [] => if s.closed then (.closedEmpty, s) else (.blocked, s)

/-- Close(): close the channel unless already closed. -/
def PacketChanState.Close (s : PacketChanState) : PacketChanState :=
  if s.closed then s else { s with closed := true }

/-! ## UDP handler allow-list (src/urihandler/udp_handler.go) -/

/-- A resolved UDP address: IP literal and port.  For such an address,
Go net.UDPAddr.IP.String() yields just the ip component. -/
structure UDPAddr where
  ip : String
  port : Nat
  deriving DecidableEq

/-- The textual host:port form of an address, as passed in source lists. -/
def addrString (a : UDPAddr) : String := a.ip ++ ":" ++ toString a.port

/-- Model of net.ResolveUDPAddr("udp", s) success on literal addresses:
resolution requires a host:port string, so it succeeds exactly when the
string contains the port separator (a bare IPv4 literal fails with
"missing port in address"). -/
def resolvesUDP (s : String) : Bool := s.data.contains ':'

/-- The allow-list NewUDPHandler builds from its sources argument: each
source string that resolves is stored, as the whole string, as a key. -/
def newAllowedSources (sources : List String) : List String :=
  sources.filter resolvesUDP

/-- The receiveData filter: a datagram from sender addr is forwarded to the
data channel iff addr.IP.String() is a key of the allow-list. -/
def udpForwards (allowed : List String) (sender : UDPAddr) : Bool :=
  allowed.contains sender.ip

/-! ## Packet decoding (second packets.go variant: NewPacket / NewAdaptations) -/

/-- Errors of the mpegts package relevant to NewPacket. -/
inductive MpegtsErr where
  | invalidSyncByte
  | invalidPacketSize
  | invalidAdaptationsField
  deriving DecidableEq

/-- Outcome of a Go call that may return an error or panic. -/
inductive GoResult (α : Type) where
  | ok (a : α)
  | err (e : MpegtsErr)
  | panicked
  deriving DecidableEq

/-- Adaptations record (decoded adaptation field data). -/
structure Adaptations where
  pcr : Nat
  dts : Nat
  discontinuityIndicator : Nat
  transportPrivateData : List Nat
  adaptationFieldExtension : List Nat
  unusedData : List Nat
  deriving DecidableEq

/-- Final stage of NewAdaptations: the adaptation-field-extension check
reads data[0], which panics when the remaining slice is empty. -/
def stageAFE (disc pcr dts : Nat) (tpd : List Nat) (data : List Nat) :
    GoResult Adaptations :=
  if data.length = 0 then .panicked
  else
    let afe := if Nat.land (data.headD 0) 1 ≠ 0 then data.drop 1 else []
    .ok { pcr := pcr, dts := dts, discontinuityIndicator := disc,
          transportPrivateData := tpd, adaptationFieldExtension := afe,
          unusedData := data }

/-- Transport-private-data stage of NewAdaptations: reads data[0] (panics
on empty) and, when the flag is set, data[1] (panics when only one byte is
left) before the length check. -/
def stageTPD (disc pcr dts : Nat) (data : List Nat) : GoResult Adaptations :=
  if data.length = 0 then .panicked
  else if Nat.land (data.headD 0) 64 ≠ 0 then
    if data.length < 2 then .panicked
    else
      let length := data.getD 1 0
      if data.length < 2 + length then .err .invalidAdaptationsField
      else stageAFE disc pcr dts ((data.drop 2).take length) (data.drop (2 + length))
  else stageAFE disc pcr dts [] data

/-- DTS stage of NewAdaptations.  When the flag is set and the length check
passes, the source calls binary.BigEndian.Uint64(data[1:5]) on a 4-byte
slice, whose internal bounds check always panics. -/
def stageDTS (disc pcr : Nat) (data : List Nat) : GoResult Adaptations :=
  if data.length = 0 then .panicked
  else if Nat.land (data.headD 0) 32 ≠ 0 then
    if data.length < 5 then .err .invalidAdaptationsField
    else .panicked
  else stageTPD disc pcr 0 data

/-- NewAdaptations(data): validates presence, extracts the discontinuity
indicator, then runs the PCR, DTS, transport-private-data and extension
stages, threading the successively shrunk slice. -/
def NewAdaptations (data : List Nat) : GoResult Adaptations :=
  if data.length < 1 then .err .invalidAdaptationsField
  else
    let disc := Nat.land (data.headD 0) 128 / 128
    if 1 < data.length then
      if Nat.land (data.headD 0) 16 ≠ 0 then
        if data.length < 10 then .err .invalidAdaptationsField
        else stageDTS disc (uint64BE data 1) (data.drop 9)
      else stageDTS disc 0 data
    else
      .ok { pcr := 0, dts := 0, discontinuityIndicator := disc,
            transportPrivateData := [], adaptationFieldExtension := [],
            unusedData := data }

/-- Decoded headers of an MPEG-TS packet. -/
structure DecodedPacket where
  syncByte : Nat
  transportError : Bool
  payloadUnitStart : Bool
  transportPriority : Bool
  pid : Nat
  scramblingControl : Nat
  continuityCounter : Nat
  deriving DecidableEq

/-- A decoded Packet: raw bytes, headers, adaptations, payload. -/
structure PacketRec where
  encoded : EncodedPacket
  decoded : DecodedPacket
  adaptations : Adaptations
  payload : List Nat
  deriving DecidableEq

/-- NewPacket(encodedPacket): sync-byte check, then the length check
(the parameter type is the 188-byte array), then header decoding and
adaptation extraction from bytes 4 .. 4+(ep[4] and 0b11)+1. -/
def NewPacket (encodedPacket : EncodedPacket) : GoResult PacketRec :=
  if encodedPacket.headD 0 ≠ 0x47 then .err .invalidSyncByte
  else if encodedPacket.length ≠ 188 then .err .invalidPacketSize
  else
    let adaptationFieldLength := Nat.land (encodedPacket.getD 4 0) 3 + 1
    let payloadStart := 4 + adaptationFieldLength
    let decoded : DecodedPacket :=
      { syncByte := encodedPacket.getD 0 0
        transportError := Nat.land (encodedPacket.getD 1 0) 128 ≠ 0
        payloadUnitStart := Nat.land (encodedPacket.getD 1 0) 64 ≠ 0
        transportPriority := Nat.land (encodedPacket.getD 1 0) 32 ≠ 0
        pid := (encodedPacket.getD 1 0 * 256 + encodedPacket.getD 2 0) % 2 ^ 13
        scramblingControl := encodedPacket.getD 3 0 / 64 % 4
        continuityCounter := encodedPacket.getD 3 0 % 16 }
    if 0 < adaptationFieldLength then
      match NewAdaptations ((encodedPacket.drop 4).take adaptationFieldLength) with
      | .err e => .err e
      | .panicked => .panicked
      | .ok a =>
          .ok { encoded := encodedPacket, decoded := decoded,
                adaptations := a, payload := encodedPacket.drop payloadStart }
    else
      .ok { encoded := encodedPacket, decoded := decoded,
            adaptations := { pcr := 0, dts := 0, discontinuityIndicator := 0,
                             transportPrivateData := [],
                             adaptationFieldExtension := [], unusedData := [] },
            payload := encodedPacket.drop payloadStart }

/-! ## Concrete packets used as inputs below -/

/-- A packet with sync byte 0x47, AFC = 0b11 (byte 3 = 0x30), all other
bytes zero. -/
def pktAFC3 : EncodedPacket := 0x47 :: 0 :: 0 :: 0x30 :: List.replicate 184 0

/-- A packet with sync byte 0x47, AFC = 0b01 (byte 3 = 0x10), all other
bytes zero. -/
def pktAFC1 : EncodedPacket := 0x47 :: 0 :: 0 :: 0x10 :: List.replicate 184 0

/-- A packet with AFC = 0b01 and payload length byte 255 (byte 4), so the
GetPayload slice ep[5:260] overruns the 188-byte frame. -/
def pktBadLen : EncodedPacket :=
  0x47 :: 0 :: 0 :: 0x10 :: 255 :: List.replicate 183 0

/-- A packet with sync byte 0x47 and all other bytes zero. -/
def pktZero : EncodedPacket := 0x47 :: List.replicate 187 0

/-! ## Helper lemmas -/

set_option maxRecDepth 8000

theorem getD_set_of_ne {α : Type} (l : List α) {i j : Nat} (h : i ≠ j)
    (v d : α) : (l.set i v).getD j d = l.getD j d := by
  simp [List.getD, List.getElem?_set_ne h]

/-- The AFC field lives in byte 3, which the package-level SetPCR never
touches. -/
theorem GetAFC_SetPCRpkg (ep : EncodedPacket) (pcr freq : Nat) :
    EncodedPacket.GetAFC (SetPCR ep pcr freq) = EncodedPacket.GetAFC ep := by
  unfold SetPCR EncodedPacket.GetAFC
  rw [getD_set_of_ne _ (by decide), getD_set_of_ne _ (by decide),
    getD_set_of_ne _ (by decide), getD_set_of_ne _ (by decide),
    getD_set_of_ne _ (by decide), getD_set_of_ne _ (by decide),
    getD_set_of_ne _ (by decide)]

/-! ## Claim C1 -/

/-- Claim C1, evaluated at the failing input pktAFC3 (AFC = 0b11) and
pcr = 1234567890 with the 27 MHz split frequency 300: the package-level
SetPCR ORs the PCR flag bit 0x10 into byte 4 (the adaptation length byte),
leaves bit 4 of byte 5 clear, and GetPCR does not read back the encoded
value; the method SetPCR stores the raw 64-bit value (so bit 4 of byte 5
also stays clear and no base/ext split is written), although its GetPCR
round-trip does hold.  The claim's layout (base/ext in bytes 6..11, flag
at byte 5 bit 4) and its round-trip through the base/ext encoder both fail. -/
theorem C1_pcr_layout_eval :
    Nat.land ((SetPCR pktAFC3 1234567890 300).getD 4 0) 0x10 = 0x10
    ∧ Nat.land ((SetPCR pktAFC3 1234567890 300).getD 5 0) 0x10 = 0
    ∧ EncodedPacket.GetPCR (SetPCR pktAFC3 1234567890 300) ≠ 1234567890
    ∧ Nat.land ((EncodedPacket.SetPCR pktAFC3 1234567890).getD 5 0) 0x10 = 0
    ∧ EncodedPacket.GetPCR (EncodedPacket.SetPCR pktAFC3 1234567890) =
        1234567890 := by
  refine ⟨by decide, by decide, by decide, by decide, by decide⟩

/-! ## Claim C5 -/

/-- Claim C5 as stated is false: GetPayload is not total.  On a packet with
AFC = 0b01 and length byte 255 the source slices ep[5:260] out of a
188-byte frame, a Go bounds panic (none in the model). -/
theorem C5_counterexample :
    EncodedPacket.GetPayload pktBadLen = none
    ∧ pktBadLen.length = 188 := by
  refine ⟨by decide, by decide⟩

/-- Claim C5 amended: on a 188-byte packet, GetPayload, GetAdaptationField
and GetTransportPrivateData are total provided the relevant length byte
fits in the frame (ep[4] ≤ 183, resp. ep[22] ≤ 165); getters return zero
or an empty slice when the field does not apply under the current AFC; and
the AFC-guarded setters are no-ops when their field is absent. -/
theorem C5_getters_amended (ep : EncodedPacket) (hlen : ep.length = 188)
    (pcr opcr sc : Nat) (af tpd : List Nat) :
    (ep.getD 4 0 ≤ 183 → (EncodedPacket.GetPayload ep).isSome = true)
    ∧ (EncodedPacket.GetAFC ep ≠ 1 →
        (EncodedPacket.GetPayload ep).isSome = true)
    ∧ (ep.getD 4 0 ≤ 183 → (EncodedPacket.GetAdaptationField ep).isSome = true)
    ∧ (¬ (EncodedPacket.GetAFC ep = 2 ∨ EncodedPacket.GetAFC ep = 3) →
        EncodedPacket.GetAdaptationField ep = some []
        ∧ EncodedPacket.GetPCR ep = 0)
    ∧ (ep.getD 22 0 ≤ 165 →
        (EncodedPacket.GetTransportPrivateData ep).isSome = true)
    ∧ (EncodedPacket.GetAFC ep ≠ 3 →
        EncodedPacket.GetTransportPrivateData ep = some [])
    ∧ (¬ (EncodedPacket.GetAFC ep = 2 ∨ EncodedPacket.GetAFC ep = 3) →
        EncodedPacket.SetPCR ep pcr = ep
        ∧ EncodedPacket.SetAdaptationField ep af = ep)
    ∧ (EncodedPacket.GetAFC ep ≠ 3 →
        EncodedPacket.SetOPCR ep opcr = ep
        ∧ EncodedPacket.SetSpliceCountdown ep sc = ep
        ∧ EncodedPacket.SetTransportPrivateData ep tpd = ep) := by
  refine ⟨?_, ?_, ?_, ?_, ?_, ?_, ?_, ?_⟩
  · intro h
    unfold EncodedPacket.GetPayload
    split_ifs <;> simp_all <;> omega
  · intro h
    unfold EncodedPacket.GetPayload
    split_ifs <;> simp_all
  · intro h
    unfold EncodedPacket.GetAdaptationField
    split_ifs <;> simp_all <;> omega
  · intro h
    unfold EncodedPacket.GetAdaptationField EncodedPacket.GetPCR
    rw [if_neg h, if_neg h]
    exact ⟨rfl, rfl⟩
  · intro h
    unfold EncodedPacket.GetTransportPrivateData
    split_ifs <;> simp_all <;> omega
  · intro h
    unfold EncodedPacket.GetTransportPrivateData
    rw [if_neg h]
  · intro h
    unfold EncodedPacket.SetPCR EncodedPacket.SetAdaptationField
    rw [if_neg h, if_neg h]
    exact ⟨rfl, rfl⟩
  · intro h
    unfold EncodedPacket.SetOPCR EncodedPacket.SetSpliceCountdown
      EncodedPacket.SetTransportPrivateData
    rw [if_neg h, if_neg h, if_neg h]
    exact ⟨rfl, rfl, rfl⟩

/-- Witness for C5_getters_amended at the all-zero packet pktZero. -/
theorem C5_witness :
    pktZero.length = 188
    ∧ ((pktZero.getD 4 0 ≤ 183 →
          (EncodedPacket.GetPayload pktZero).isSome = true)
       ∧ (EncodedPacket.GetAFC pktZero ≠ 1 →
          (EncodedPacket.GetPayload pktZero).isSome = true)
       ∧ (pktZero.getD 4 0 ≤ 183 →
          (EncodedPacket.GetAdaptationField pktZero).isSome = true)
       ∧ (¬ (EncodedPacket.GetAFC pktZero = 2 ∨ EncodedPacket.GetAFC pktZero = 3) →
          EncodedPacket.GetAdaptationField pktZero = some []
          ∧ EncodedPacket.GetPCR pktZero = 0)
       ∧ (pktZero.getD 22 0 ≤ 165 →
          (EncodedPacket.GetTransportPrivateData pktZero).isSome = true)
       ∧ (EncodedPacket.GetAFC pktZero ≠ 3 →
          EncodedPacket.GetTransportPrivateData pktZero = some [])
       ∧ (¬ (EncodedPacket.GetAFC pktZero = 2 ∨ EncodedPacket.GetAFC pktZero = 3) →
          EncodedPacket.SetPCR pktZero 7 = pktZero
          ∧ EncodedPacket.SetAdaptationField pktZero [1] = pktZero)
       ∧ (EncodedPacket.GetAFC pktZero ≠ 3 →
          EncodedPacket.SetOPCR pktZero 7 = pktZero
          ∧ EncodedPacket.SetSpliceCountdown pktZero 7 = pktZero
          ∧ EncodedPacket.SetTransportPrivateData pktZero [1] = pktZero)) :=
  ⟨by decide, C5_getters_amended pktZero (by decide) 7 7 7 [1] [1]⟩

/-! ## Claim C6 -/

/-- Claim C6 as stated is false at pktAFC1 (AFC = 0b01): neither SetPCR
upgrades the AFC to 0b11 — the method version leaves the packet unchanged
(byte 4 stays 0 < 7), and the package-level version leaves AFC at 0b01. -/
theorem C6_counterexample :
    ¬ (EncodedPacket.GetAFC (EncodedPacket.SetPCR pktAFC1 1234567890) = 3
       ∧ 7 ≤ (EncodedPacket.SetPCR pktAFC1 1234567890).getD 4 0)
    ∧ EncodedPacket.GetAFC (SetPCR pktAFC1 1234567890 300) = 1
    ∧ EncodedPacket.GetAFC pktAFC1 = 1 := by
  refine ⟨by decide, by decide, by decide⟩

/-- Claim C6 amended: on a packet whose AFC does not indicate an adaptation
field, the method SetPCR is a no-op (the packet is unchanged, so no AFC
upgrade and no adaptation length adjustment happens), and the package-level
SetPCR never modifies the AFC field. -/
theorem C6_setpcr_no_upgrade (ep : EncodedPacket) (pcr freq : Nat)
    (h : EncodedPacket.GetAFC ep = 0 ∨ EncodedPacket.GetAFC ep = 1) :
    EncodedPacket.SetPCR ep pcr = ep
    ∧ EncodedPacket.GetAFC (SetPCR ep pcr freq) = EncodedPacket.GetAFC ep := by
  constructor
  · unfold EncodedPacket.SetPCR
    rw [if_neg]
    rcases h with h | h <;> omega
  · exact GetAFC_SetPCRpkg ep pcr freq

/-- Witness for C6_setpcr_no_upgrade at pktAFC1. -/
theorem C6_witness :
    (EncodedPacket.GetAFC pktAFC1 = 0 ∨ EncodedPacket.GetAFC pktAFC1 = 1)
    ∧ EncodedPacket.SetPCR pktAFC1 9 = pktAFC1
    ∧ EncodedPacket.GetAFC (SetPCR pktAFC1 9 300) =
        EncodedPacket.GetAFC pktAFC1 :=
  ⟨by decide, C6_setpcr_no_upgrade pktAFC1 9 300 (by decide)⟩

/-! ## Claim C8 -/

/-- Claim C8: the first Stop() halts the ticker and closes both streams,
but Stop() is not idempotent — the second call reaches close(EventCh) on an
already-closed channel and panics (the error case of the model). -/
theorem C8_stop_eval :
    PLLStop newPLLChans =
      .ok { eventClosed := true, triggerClosed := true, tickerRunning := false }
    ∧ (PLLStop newPLLChans).bind PLLStop = .error () :=
  ⟨rfl, rfl⟩

/-! ## Claim C9 -/

/-- Claim C9, evaluated at the failing input: NewUDPHandler stores the
resolvable source string "127.0.0.1:3000" as an allow-list key, but
receiveData looks up the sender's bare IP string "127.0.0.1", so the
datagram from the listed sender is dropped, not forwarded. -/
theorem C9_allowlist_eval :
    resolvesUDP "127.0.0.1:3000" = true
    ∧ addrString { ip := "127.0.0.1", port := 3000 } = "127.0.0.1:3000"
    ∧ newAllowedSources ["127.0.0.1:3000"] = ["127.0.0.1:3000"]
    ∧ udpForwards (newAllowedSources ["127.0.0.1:3000"])
        { ip := "127.0.0.1", port := 3000 } = false := by
  refine ⟨by decide, rfl, by decide, by decide⟩

/-! ## Claim C10 -/

theorem stageAFE_err_eq (disc pcr dts : Nat) (tpd data : List Nat)
    (e : MpegtsErr) (h : stageAFE disc pcr dts tpd data = .err e) : False := by
  unfold stageAFE at h
  dsimp only at h
  split_ifs at h <;> simp_all

theorem stageTPD_err_eq (disc pcr dts : Nat) (data : List Nat)
    (e : MpegtsErr) (h : stageTPD disc pcr dts data = .err e) :
    e = .invalidAdaptationsField := by
  unfold stageTPD at h
  dsimp only at h
  split_ifs at h <;>
    first
      | exact absurd h fun hh => stageAFE_err_eq _ _ _ _ _ _ hh
      | simp_all

theorem stageDTS_err_eq (disc pcr : Nat) (data : List Nat)
    (e : MpegtsErr) (h : stageDTS disc pcr data = .err e) :
    e = .invalidAdaptationsField := by
  unfold stageDTS at h
  split_ifs at h <;>
    first
      | exact stageTPD_err_eq _ _ _ _ _ h
      | simp_all

theorem NewAdaptations_err_eq (data : List Nat) (e : MpegtsErr)
    (h : NewAdaptations data = .err e) : e = .invalidAdaptationsField := by
  unfold NewAdaptations at h
  dsimp only at h
  split_ifs at h <;>
    first
      | exact stageDTS_err_eq _ _ _ _ h
      | simp_all

/-- Claim C10: on any 188-byte input (every value of the Go EncodedPacket
array type), NewPacket never returns ErrInvalidPacketSize - the size-check
branch is unreachable - and any returned error is ErrInvalidSyncByte or an
adaptation-field decoding error. -/
theorem C10_newpacket_errors (ep : EncodedPacket) (hlen : ep.length = 188) :
    NewPacket ep ≠ GoResult.err MpegtsErr.invalidPacketSize
    ∧ ∀ e : MpegtsErr, NewPacket ep = GoResult.err e →
        e = MpegtsErr.invalidSyncByte ∨ e = MpegtsErr.invalidAdaptationsField := by
  constructor
  · intro h
    unfold NewPacket at h
    dsimp only at h
    split_ifs at h with h1 h2 h3
    · simp_all
    · simp_all
    · split at h
      · rename_i e2 heq
        have := NewAdaptations_err_eq _ _ heq
        simp_all
      · simp_all
      · simp_all
  · intro e h
    unfold NewPacket at h
    dsimp only at h
    split_ifs at h with h1 h2 h3
    · simp_all
    · simp_all
    · split at h
      · rename_i e2 heq
        have := NewAdaptations_err_eq _ _ heq
        simp_all
      · simp_all
      · simp_all

/-- Witness for C10_newpacket_errors at the all-zero packet pktZero. -/
theorem C10_witness :
    pktZero.length = 188
    ∧ (NewPacket pktZero ≠ GoResult.err MpegtsErr.invalidPacketSize
       ∧ ∀ e : MpegtsErr, NewPacket pktZero = GoResult.err e →
           e = MpegtsErr.invalidSyncByte
           ∨ e = MpegtsErr.invalidAdaptationsField) :=
  ⟨by decide, C10_newpacket_errors pktZero (by decide)⟩

/-! ## Claim C7 -/

/-- Claim C7: on any channel state, Send fails with the channel-closed
error exactly when the channel is closed (in particular on any state
reached after Close, since no operation reopens a channel); Send fails
with the buffer-full error exactly when the open channel is at capacity; a
failed Send leaves the queue unchanged and puts the acquired pooled buffer
back into the pool; Close is idempotent; and Receive returns the nil
bottom value iff the channel is closed and empty. -/
theorem C7_packetchan (s : PacketChanState) (data other : List Nat) :
    ((s.Send data).1 = SendResult.channelClosed ↔ s.closed = true)
    ∧ ((s.Close.Send data).1 = SendResult.channelClosed
       ∧ (s.Send other).2.closed = s.closed
       ∧ s.Receive.2.closed = s.closed)
    ∧ ((s.Send data).1 = SendResult.bufferFull ↔
        (s.closed = false ∧ s.queue.length = s.capacity))
    ∧ ((s.Send data).1 ≠ SendResult.ok →
        (s.Send data).2.queue = s.queue
        ∧ (s.Send data).2.pool = poolPut (poolGet s.pool))
    ∧ s.Close.Close = s.Close
    ∧ (s.Receive.1 = RecvResult.closedEmpty ↔ (s.closed = true ∧ s.queue = [])) := by
  obtain ⟨c, q, cap, pool⟩ := s
  refine ⟨?_, ⟨?_, ?_, ?_⟩, ?_, ?_, ?_, ?_⟩ <;>
    cases c <;>
    cases q <;>
    simp_all [PacketChanState.Send, PacketChanState.Receive,
      PacketChanState.Close] <;>
    split_ifs <;> simp_all

/-- Witness for C7_packetchan at a freshly constructed channel of
capacity 1. -/
theorem C7_witness :
    (((NewPacketChan 1).Send [9]).1 = SendResult.channelClosed ↔
        (NewPacketChan 1).closed = true)
    ∧ (((NewPacketChan 1).Close.Send [9]).1 = SendResult.channelClosed
       ∧ ((NewPacketChan 1).Send [8]).2.closed = (NewPacketChan 1).closed
       ∧ (NewPacketChan 1).Receive.2.closed = (NewPacketChan 1).closed)
    ∧ (((NewPacketChan 1).Send [9]).1 = SendResult.bufferFull ↔
        ((NewPacketChan 1).closed = false
         ∧ (NewPacketChan 1).queue.length = (NewPacketChan 1).capacity))
    ∧ (((NewPacketChan 1).Send [9]).1 ≠ SendResult.ok →
        ((NewPacketChan 1).Send [9]).2.queue = (NewPacketChan 1).queue
        ∧ ((NewPacketChan 1).Send [9]).2.pool =
            poolPut (poolGet (NewPacketChan 1).pool))
    ∧ (NewPacketChan 1).Close.Close = (NewPacketChan 1).Close
    ∧ ((NewPacketChan 1).Receive.1 = RecvResult.closedEmpty ↔
        ((NewPacketChan 1).closed = true ∧ (NewPacketChan 1).queue = [])) :=
  C7_packetchan (NewPacketChan 1) [9] [8]

/-! ## Claim C2 -/

theorem zip_map_getD {T β : Type} (f : Nat × List T → β) (dflt : β) :
    ∀ (qs : List Nat) (queues : List (List T)) (i : Nat),
      qs.length = queues.length → i < queues.length →
      ((qs.zip queues).map f).getD i dflt = f (qs.getD i 0, queues.getD i []) := by
  intro qs
  induction qs with
  | nil =>
      intro queues i h hi
      simp at h
      omega
  | cons a as ih =>
      intro queues i h hi
      cases queues with
      | nil => simp at hi
      | cons q rest =>
          cases i with
          | zero => simp [List.getD]
          | succ n =>
              have h2 : as.length = rest.length := by simpa using h
              have hi2 : n < rest.length := by simpa using hi
              simpa using ih rest n h2 hi2

theorem doStep_ne {T : Type} (maxTake quantum : Nat) (q : List T)
    (h : q ≠ []) :
    doStep maxTake quantum q =
      (q.take (min (min quantum q.length) maxTake),
       q.length - min (min quantum q.length) maxTake,
       q.drop (min (min quantum q.length) maxTake)) := by
  have hc : ¬ (q.isEmpty = true) := by simp [List.isEmpty_iff, h]
  unfold doStep
  rw [if_neg hc]

/-- Claim C2: a single Do() call treats queue i as follows — an empty queue
gets quantum 1 and contributes an empty slot; a non-empty queue yields
exactly its first min(quantum, length, maxTake) items in FIFO order, those
items are removed, and the quantum becomes the pre-take length minus the
take.  In particular the 2-queue maxTake=2 scenario returns
[[1,2],[5,6]], [[3,4],[7,8]], [[5],[9]], [[],[]]. -/
theorem C2_do_semantics {T : Type} (d : DWRR T) (i : Nat)
    (hlen : d.quantums.length = d.queues.length) (hi : i < d.queues.length) :
    ((d.queues.getD i [] = [] →
        d.Do.1.getD i [] = []
        ∧ d.Do.2.quantums.getD i 0 = 1
        ∧ d.Do.2.queues.getD i [] = [])
     ∧ (d.queues.getD i [] ≠ [] →
        d.Do.1.getD i [] =
          (d.queues.getD i []).take
            (min (min (d.quantums.getD i 0) (d.queues.getD i []).length)
              d.maxTake)
        ∧ d.Do.2.queues.getD i [] =
          (d.queues.getD i []).drop
            (min (min (d.quantums.getD i 0) (d.queues.getD i []).length)
              d.maxTake)
        ∧ d.Do.2.quantums.getD i 0 =
          (d.queues.getD i []).length -
            min (min (d.quantums.getD i 0) (d.queues.getD i []).length)
              d.maxTake))
    ∧ (let s := ((NewDWRR Nat 2 2).Enqueue 0 [1, 2, 3, 4, 5]).Enqueue 1
          [5, 6, 7, 8, 9]
       s.Do.1 = [[1, 2], [5, 6]]
       ∧ s.Do.2.Do.1 = [[3, 4], [7, 8]]
       ∧ s.Do.2.Do.2.Do.1 = [[5], [9]]
       ∧ s.Do.2.Do.2.Do.2.Do.1 = [[], []]) := by
  have key1 : d.Do.1.getD i [] =
      (doStep d.maxTake (d.quantums.getD i 0) (d.queues.getD i [])).1 := by
    show (((d.quantums.zip d.queues).map fun x =>
        doStep d.maxTake x.1 x.2).map fun x => x.1).getD i [] = _
    rw [List.map_map]
    exact zip_map_getD _ _ d.quantums d.queues i hlen hi
  have key2 : d.Do.2.quantums.getD i 0 =
      (doStep d.maxTake (d.quantums.getD i 0) (d.queues.getD i [])).2.1 := by
    show (((d.quantums.zip d.queues).map fun x =>
        doStep d.maxTake x.1 x.2).map fun x => x.2.1).getD i 0 = _
    rw [List.map_map]
    exact zip_map_getD _ _ d.quantums d.queues i hlen hi
  have key3 : d.Do.2.queues.getD i [] =
      (doStep d.maxTake (d.quantums.getD i 0) (d.queues.getD i [])).2.2 := by
    show (((d.quantums.zip d.queues).map fun x =>
        doStep d.maxTake x.1 x.2).map fun x => x.2.2).getD i [] = _
    rw [List.map_map]
    exact zip_map_getD _ _ d.quantums d.queues i hlen hi
  refine ⟨⟨?_, ?_⟩, ?_⟩
  · intro h
    rw [key1, key2, key3, h]
    exact ⟨rfl, rfl, rfl⟩
  · intro h
    rw [key1, key2, key3, doStep_ne _ _ _ h]
    exact ⟨rfl, rfl, rfl⟩
  · decide

/-- Witness for C2_do_semantics at a 2-queue state with quantums [2, 1],
queues [[4, 5, 6], []] and maxTake 2, at queue index 0. -/
theorem C2_witness :
    ((DWRR.mk [2, 1] [[4, 5, 6], []] 2 : DWRR Nat).quantums.length =
        (DWRR.mk [2, 1] [[4, 5, 6], []] 2 : DWRR Nat).queues.length
     ∧ 0 < (DWRR.mk [2, 1] [[4, 5, 6], []] 2 : DWRR Nat).queues.length)
    ∧ ((((DWRR.mk [2, 1] [[4, 5, 6], []] 2 : DWRR Nat).queues.getD 0 [] = [] →
        (DWRR.mk [2, 1] [[4, 5, 6], []] 2 : DWRR Nat).Do.1.getD 0 [] = []
        ∧ (DWRR.mk [2, 1] [[4, 5, 6], []] 2 : DWRR Nat).Do.2.quantums.getD 0 0 = 1
        ∧ (DWRR.mk [2, 1] [[4, 5, 6], []] 2 : DWRR Nat).Do.2.queues.getD 0 [] = [])
       ∧ ((DWRR.mk [2, 1] [[4, 5, 6], []] 2 : DWRR Nat).queues.getD 0 [] ≠ [] →
        (DWRR.mk [2, 1] [[4, 5, 6], []] 2 : DWRR Nat).Do.1.getD 0 [] =
          ((DWRR.mk [2, 1] [[4, 5, 6], []] 2 : DWRR Nat).queues.getD 0 []).take
            (min (min ((DWRR.mk [2, 1] [[4, 5, 6], []] 2 : DWRR Nat).quantums.getD 0 0)
              ((DWRR.mk [2, 1] [[4, 5, 6], []] 2 : DWRR Nat).queues.getD 0 []).length)
              (DWRR.mk [2, 1] [[4, 5, 6], []] 2 : DWRR Nat).maxTake)
        ∧ (DWRR.mk [2, 1] [[4, 5, 6], []] 2 : DWRR Nat).Do.2.queues.getD 0 [] =
          ((DWRR.mk [2, 1] [[4, 5, 6], []] 2 : DWRR Nat).queues.getD 0 []).drop
            (min (min ((DWRR.mk [2, 1] [[4, 5, 6], []] 2 : DWRR Nat).quantums.getD 0 0)
              ((DWRR.mk [2, 1] [[4, 5, 6], []] 2 : DWRR Nat).queues.getD 0 []).length)
              (DWRR.mk [2, 1] [[4, 5, 6], []] 2 : DWRR Nat).maxTake)
        ∧ (DWRR.mk [2, 1] [[4, 5, 6], []] 2 : DWRR Nat).Do.2.quantums.getD 0 0 =
          ((DWRR.mk [2, 1] [[4, 5, 6], []] 2 : DWRR Nat).queues.getD 0 []).length -
            min (min ((DWRR.mk [2, 1] [[4, 5, 6], []] 2 : DWRR Nat).quantums.getD 0 0)
              ((DWRR.mk [2, 1] [[4, 5, 6], []] 2 : DWRR Nat).queues.getD 0 []).length)
              (DWRR.mk [2, 1] [[4, 5, 6], []] 2 : DWRR Nat).maxTake))
      ∧ (let s := ((NewDWRR Nat 2 2).Enqueue 0 [1, 2, 3, 4, 5]).Enqueue 1
            [5, 6, 7, 8, 9]
         s.Do.1 = [[1, 2], [5, 6]]
         ∧ s.Do.2.Do.1 = [[3, 4], [7, 8]]
         ∧ s.Do.2.Do.2.Do.1 = [[5], [9]]
         ∧ s.Do.2.Do.2.Do.2.Do.1 = [[], []])) :=
  ⟨⟨by decide, by decide⟩,
   C2_do_semantics (DWRR.mk [2, 1] [[4, 5, 6], []] 2) 0 (by decide) (by decide)⟩

/-! ## Claim C3: helper lemmas -/

theorem getD_set_self {α : Type} (l : List α) {i : Nat} (h : i < l.length)
    (v d : α) : (l.set i v).getD i d = v := by
  simp [List.getD, List.getElem?_set_self h]

theorem getD_replicate_nil {T : Type} (k i : Nat) :
    (List.replicate k ([] : List T)).getD i [] = [] := by
  rcases lt_or_ge i k with h | h
  · simp [List.getD, List.getElem?_replicate, h]
  · have hlen : (List.replicate k ([] : List T)).length ≤ i := by simpa using h
    simp [List.getD_eq_default _ _ hlen]

theorem ceil_mul_ge (n m : Nat) (hm : 1 ≤ m) : n ≤ ((n + m - 1) / m) * m := by
  have h1 := Nat.div_add_mod (n + m - 1) m
  have h2 : (n + m - 1) % m < m := Nat.mod_lt _ hm
  have h3 : ((n + m - 1) / m) * m = m * ((n + m - 1) / m) := Nat.mul_comm _ _
  omega

theorem Enqueue_lengths {T : Type} (d : DWRR T) (j : Nat) (xs : List T) :
    (d.Enqueue j xs).quantums.length = d.quantums.length
    ∧ (d.Enqueue j xs).queues.length = d.queues.length
    ∧ (d.Enqueue j xs).maxTake = d.maxTake := by
  simp [DWRR.Enqueue]

theorem Do_lengths {T : Type} (d : DWRR T)
    (hlen : d.quantums.length = d.queues.length) :
    d.Do.2.quantums.length = d.queues.length
    ∧ d.Do.2.queues.length = d.queues.length
    ∧ d.Do.2.maxTake = d.maxTake := by
  refine ⟨?_, ?_, rfl⟩ <;> simp [DWRR.Do, hlen]

theorem Enqueue_queues_getD {T : Type} (d : DWRR T) (j : Nat) (xs : List T)
    (i : Nat) (hj : j < d.queues.length) :
    (d.Enqueue j xs).queues.getD i [] =
      if j = i then d.queues.getD j [] ++ xs else d.queues.getD i [] := by
  unfold DWRR.Enqueue
  dsimp only
  by_cases h : j = i
  · subst h
    rw [if_pos rfl, getD_set_self _ hj]
  · rw [if_neg h, getD_set_of_ne _ h]

theorem Enqueue_quantums_getD {T : Type} (d : DWRR T) (j : Nat) (xs : List T)
    (i : Nat) (hj : j < d.quantums.length) :
    (d.Enqueue j xs).quantums.getD i 0 =
      if j = i then (d.queues.getD j [] ++ xs).length
      else d.quantums.getD i 0 := by
  unfold DWRR.Enqueue
  dsimp only
  by_cases h : j = i
  · subst h
    rw [if_pos rfl, getD_set_self _ hj]
  · rw [if_neg h, getD_set_of_ne _ h]

theorem Do_slot {T : Type} (d : DWRR T) (i : Nat)
    (hlen : d.quantums.length = d.queues.length) (hi : i < d.queues.length) :
    d.Do.1.getD i [] =
      (doStep d.maxTake (d.quantums.getD i 0) (d.queues.getD i [])).1
    ∧ d.Do.2.quantums.getD i 0 =
      (doStep d.maxTake (d.quantums.getD i 0) (d.queues.getD i [])).2.1
    ∧ d.Do.2.queues.getD i [] =
      (doStep d.maxTake (d.quantums.getD i 0) (d.queues.getD i [])).2.2 := by
  refine ⟨?_, ?_, ?_⟩
  · show (((d.quantums.zip d.queues).map fun x =>
        doStep d.maxTake x.1 x.2).map fun x => x.1).getD i [] = _
    rw [List.map_map]
    exact zip_map_getD _ _ d.quantums d.queues i hlen hi
  · show (((d.quantums.zip d.queues).map fun x =>
        doStep d.maxTake x.1 x.2).map fun x => x.2.1).getD i 0 = _
    rw [List.map_map]
    exact zip_map_getD _ _ d.quantums d.queues i hlen hi
  · show (((d.quantums.zip d.queues).map fun x =>
        doStep d.maxTake x.1 x.2).map fun x => x.2.2).getD i [] = _
    rw [List.map_map]
    exact zip_map_getD _ _ d.quantums d.queues i hlen hi

theorem Do_slot_append {T : Type} (d : DWRR T) (i : Nat)
    (hlen : d.quantums.length = d.queues.length) (hi : i < d.queues.length) :
    d.Do.1.getD i [] ++ d.Do.2.queues.getD i [] = d.queues.getD i [] := by
  obtain ⟨e1, _, e3⟩ := Do_slot d i hlen hi
  rw [e1, e3]
  by_cases hq : d.queues.getD i [] = []
  · rw [hq]
    rfl
  · rw [doStep_ne _ _ _ hq]
    exact List.take_append_drop _ _

theorem Do_slot_length_le {T : Type} (d : DWRR T) (i : Nat) :
    (d.Do.1.getD i []).length ≤ d.maxTake := by
  have hmem : ∀ x ∈ d.Do.1, List.length x ≤ d.maxTake := by
    intro x hx
    simp only [DWRR.Do, List.map_map, List.mem_map] at hx
    obtain ⟨⟨a, b⟩, _, rfl⟩ := hx
    by_cases hb : b = []
    · subst hb
      simp [doStep]
    · simp only [Function.comp, doStep_ne _ _ _ hb, List.length_take]
      omega
  rcases lt_or_ge i d.Do.1.length with h | h
  · have : d.Do.1.getD i [] ∈ d.Do.1 := by
      rw [List.getD_eq_getElem _ _ h]
      exact List.getElem_mem h
    exact hmem _ this
  · rw [List.getD_eq_default _ _ h]
    simp

theorem runOps_append {T : Type} :
    ∀ (l1 l2 : List (DwrrOp T)) (d : DWRR T),
      runOps d (l1 ++ l2) = runOps (runOps d l1) l2 := by
  intro l1
  induction l1 with
  | nil => intro l2 d; rfl
  | cons op rest ih =>
      intro l2 d
      cases op with
      | enq j xs => simpa [runOps] using ih l2 (d.Enqueue j xs)
      | step => simpa [runOps] using ih l2 d.Do.2

theorem returnedAt_append {T : Type} (i : Nat) :
    ∀ (l1 l2 : List (DwrrOp T)) (d : DWRR T),
      returnedAt i d (l1 ++ l2) =
        returnedAt i d l1 ++ returnedAt i (runOps d l1) l2 := by
  intro l1
  induction l1 with
  | nil => intro l2 d; rfl
  | cons op rest ih =>
      intro l2 d
      cases op with
      | enq j xs => simpa [returnedAt, runOps] using ih l2 (d.Enqueue j xs)
      | step =>
          simp only [List.cons_append, returnedAt, runOps, List.append_eq]
          rw [ih l2 d.Do.2, List.append_assoc]

theorem enqueuedAt_append {T : Type} (i : Nat) :
    ∀ (l1 l2 : List (DwrrOp T)),
      enqueuedAt i (l1 ++ l2) = enqueuedAt i l1 ++ enqueuedAt i l2 := by
  intro l1
  induction l1 with
  | nil => intro l2; rfl
  | cons op rest ih =>
      intro l2
      cases op with
      | enq j xs => simp [enqueuedAt, ih]
      | step => simpa [enqueuedAt] using ih l2

theorem enqueuedAt_replicate_step {T : Type} (i k : Nat) :
    enqueuedAt i (List.replicate k (DwrrOp.step : DwrrOp T)) = [] := by
  induction k with
  | zero => rfl
  | succ n ih => simpa [List.replicate_succ, enqueuedAt] using ih

theorem runOps_lengths {T : Type} :
    ∀ (ops : List (DwrrOp T)) (d : DWRR T),
      d.quantums.length = d.queues.length →
      ((runOps d ops).quantums.length = (runOps d ops).queues.length
       ∧ (runOps d ops).queues.length = d.queues.length
       ∧ (runOps d ops).maxTake = d.maxTake) := by
  intro ops
  induction ops with
  | nil => intro d hlen; exact ⟨hlen, rfl, rfl⟩
  | cons op rest ih =>
      intro d hlen
      cases op with
      | enq j xs =>
          obtain ⟨l1, l2, l3⟩ := Enqueue_lengths d j xs
          have := ih (d.Enqueue j xs) (by rw [l1, l2]; exact hlen)
          simpa [runOps, l2, l3] using this
      | step =>
          obtain ⟨l1, l2, l3⟩ := Do_lengths d hlen
          have := ih d.Do.2 (by rw [l1, l2])
          simpa [runOps, l2, l3] using this

theorem returned_accounting {T : Type} (i : Nat) :
    ∀ (ops : List (DwrrOp T)) (d : DWRR T),
      d.quantums.length = d.queues.length →
      i < d.queues.length →
      (∀ op ∈ ops, op.WF d.queues.length) →
      returnedAt i d ops ++ (runOps d ops).queues.getD i [] =
        d.queues.getD i [] ++ enqueuedAt i ops := by
  intro ops
  induction ops with
  | nil =>
      intro d hlen hi hwf
      simp [returnedAt, runOps, enqueuedAt]
  | cons op rest ih =>
      intro d hlen hi hwf
      cases op with
      | enq j xs =>
          have hj : j < d.queues.length := by
            have := hwf (DwrrOp.enq j xs) (by simp)
            simpa [DwrrOp.WF] using this
          obtain ⟨l1, l2, l3⟩ := Enqueue_lengths d j xs
          have ih2 := ih (d.Enqueue j xs) (by rw [l1, l2]; exact hlen)
            (by rw [l2]; exact hi)
            (by rw [l2]; intro o ho; exact hwf o (by simp [ho]))
          simp only [returnedAt, runOps, enqueuedAt]
          rw [ih2, Enqueue_queues_getD d j xs i hj]
          by_cases h : j = i
          · subst h
            simp
          · simp [h]
      | step =>
          obtain ⟨l1, l2, l3⟩ := Do_lengths d hlen
          have ih2 := ih d.Do.2 (by rw [l1, l2]) (by rw [l2]; exact hi)
            (by rw [l2]; intro o ho; exact hwf o (by simp [ho]))
          simp only [returnedAt, runOps, enqueuedAt]
          rw [List.append_assoc, ih2, ← List.append_assoc,
            Do_slot_append d i hlen hi]

theorem qInv_runOps {T : Type} (i : Nat) :
    ∀ (ops : List (DwrrOp T)) (d : DWRR T),
      d.quantums.length = d.queues.length →
      i < d.queues.length →
      (∀ op ∈ ops, op.WF d.queues.length) →
      (d.queues.getD i [] = [] ∨
        d.quantums.getD i 0 = (d.queues.getD i []).length) →
      ((runOps d ops).queues.getD i [] = [] ∨
        (runOps d ops).quantums.getD i 0 =
          ((runOps d ops).queues.getD i []).length) := by
  intro ops
  induction ops with
  | nil => intro d _ _ _ hinv; exact hinv
  | cons op rest ih =>
      intro d hlen hi hwf hinv
      cases op with
      | enq j xs =>
          have hj : j < d.queues.length := by
            have := hwf (DwrrOp.enq j xs) (by simp)
            simpa [DwrrOp.WF] using this
          obtain ⟨l1, l2, l3⟩ := Enqueue_lengths d j xs
          apply ih (d.Enqueue j xs) (by rw [l1, l2]; exact hlen)
            (by rw [l2]; exact hi)
            (by rw [l2]; intro o ho; exact hwf o (by simp [ho]))
          rw [Enqueue_queues_getD d j xs i hj,
            Enqueue_quantums_getD d j xs i (by rw [hlen]; exact hj)]
          by_cases h : j = i
          · subst h
            simp
          · simp only [h, if_false]
            exact hinv
      | step =>
          obtain ⟨l1, l2, l3⟩ := Do_lengths d hlen
          apply ih d.Do.2 (by rw [l1, l2]) (by rw [l2]; exact hi)
            (by rw [l2]; intro o ho; exact hwf o (by simp [ho]))
          obtain ⟨e1, e2, e3⟩ := Do_slot d i hlen hi
          rw [e2, e3]
          by_cases hq : d.queues.getD i [] = []
          · rw [hq]
            left
            rfl
          · rcases hinv with hinv | hinv
            · exact absurd hinv hq
            · rw [doStep_ne _ _ _ hq]
              right
              simp [List.length_drop]

theorem drain_steps {T : Type} :
    ∀ (k : Nat) (d : DWRR T) (i : Nat),
      d.quantums.length = d.queues.length →
      i < d.queues.length →
      1 ≤ d.maxTake →
      (d.queues.getD i [] = [] ∨
        d.quantums.getD i 0 = (d.queues.getD i []).length) →
      (d.queues.getD i []).length ≤ k * d.maxTake →
      (runOps d (List.replicate k DwrrOp.step)).queues.getD i [] = [] := by
  intro k
  induction k with
  | zero =>
      intro d i hlen hi hmt hinv hb
      simp only [List.replicate, runOps]
      have h0 : (d.queues.getD i []).length = 0 := by omega
      exact List.length_eq_zero.mp h0
  | succ n ih =>
      intro d i hlen hi hmt hinv hb
      rw [List.replicate_succ]
      simp only [runOps]
      obtain ⟨l1, l2, l3⟩ := Do_lengths d hlen
      obtain ⟨e1, e2, e3⟩ := Do_slot d i hlen hi
      apply ih d.Do.2 i (by rw [l1, l2]) (by rw [l2]; exact hi)
        (by rw [l3]; exact hmt)
      · rw [e2, e3]
        by_cases hq : d.queues.getD i [] = []
        · rw [hq]
          left
          rfl
        · rcases hinv with hinv | hinv
          · exact absurd hinv hq
          · rw [doStep_ne _ _ _ hq]
            right
            simp [List.length_drop]
      · rw [e3, l3]
        by_cases hq : d.queues.getD i [] = []
        · rw [hq]
          simp [doStep]
        · rcases hinv with hinv | hinv
          · exact absurd hinv hq
          · rw [doStep_ne _ _ _ hq, hinv]
            simp only [List.length_drop]
            have hmul : (n + 1) * d.maxTake = n * d.maxTake + d.maxTake :=
              Nat.succ_mul n d.maxTake
            omega

/-- Claim C3: starting from NewDWRR(count, maxTake) with maxTake ≥ 1, for
any well-formed finite trace of Enqueue and Do() operations and any queue
index i: (1) the items returned for queue i so far, followed by the items
still queued, equal the items enqueued to i in order — so returns are in
per-queue FIFO order and nothing is lost or duplicated; (2) the next Do()
returns at most maxTake items for queue i (as every Do() in any trace is
the next Do() of its prefix); (3) appending ceil(n / maxTake) Do() calls,
where n is the current length of queue i, returns exactly the full
enqueued sequence — every enqueued item is returned by some later Do(). -/
theorem C3_dwrr_liveness {T : Type} (count maxTake i : Nat)
    (ops : List (DwrrOp T)) (hmt : 1 ≤ maxTake) (hi : i < count)
    (hwf : ∀ op ∈ ops, op.WF count) :
    returnedAt i (NewDWRR T count maxTake) ops ++
        (runOps (NewDWRR T count maxTake) ops).queues.getD i [] =
      enqueuedAt i ops
    ∧ ((runOps (NewDWRR T count maxTake) ops).Do.1.getD i []).length ≤ maxTake
    ∧ returnedAt i (NewDWRR T count maxTake)
        (ops ++ List.replicate
          ((((runOps (NewDWRR T count maxTake) ops).queues.getD i []).length
              + maxTake - 1) / maxTake) DwrrOp.step) =
      enqueuedAt i ops := by
  have h0len : (NewDWRR T count maxTake).quantums.length =
      (NewDWRR T count maxTake).queues.length := by simp [NewDWRR]
  have h0cnt : (NewDWRR T count maxTake).queues.length = count := by
    simp [NewDWRR]
  have h0i : i < (NewDWRR T count maxTake).queues.length := by
    rw [h0cnt]
    exact hi
  have h0q : (NewDWRR T count maxTake).queues.getD i [] = [] :=
    getD_replicate_nil count i
  have hwf0 : ∀ op ∈ ops, DwrrOp.WF (NewDWRR T count maxTake).queues.length op := by
    rw [h0cnt]
    exact hwf
  obtain ⟨r1, r2, r3⟩ := runOps_lengths ops (NewDWRR T count maxTake) h0len
  have acc := returned_accounting i ops (NewDWRR T count maxTake) h0len h0i hwf0
  rw [h0q] at acc
  refine ⟨by simpa using acc, ?_, ?_⟩
  · have hb := Do_slot_length_le (runOps (NewDWRR T count maxTake) ops) i
    rw [r3] at hb
    exact hb
  · have hkEnd : 1 ≤ (runOps (NewDWRR T count maxTake) ops).maxTake := by
      rw [r3]
      exact hmt
    have hiEnd : i < (runOps (NewDWRR T count maxTake) ops).queues.length := by
      rw [r2, h0cnt]
      exact hi
    have hinvEnd := qInv_runOps i ops (NewDWRR T count maxTake) h0len h0i hwf0
      (Or.inl h0q)
    have hbEnd :
        (((runOps (NewDWRR T count maxTake) ops).queues.getD i []).length) ≤
          ((((runOps (NewDWRR T count maxTake) ops).queues.getD i []).length
              + maxTake - 1) / maxTake) *
            (runOps (NewDWRR T count maxTake) ops).maxTake := by
      rw [r3]
      exact ceil_mul_ge _ maxTake hmt
    have hdrain := drain_steps
      ((((runOps (NewDWRR T count maxTake) ops).queues.getD i []).length
          + maxTake - 1) / maxTake)
      (runOps (NewDWRR T count maxTake) ops) i r1 hiEnd hkEnd hinvEnd hbEnd
    have hwfF : ∀ op ∈ ops ++ List.replicate
        ((((runOps (NewDWRR T count maxTake) ops).queues.getD i []).length
            + maxTake - 1) / maxTake) DwrrOp.step,
        DwrrOp.WF (NewDWRR T count maxTake).queues.length op := by
      intro op hop
      rcases List.mem_append.mp hop with h | h
      · exact hwf0 op h
      · have heq : op = DwrrOp.step := List.eq_of_mem_replicate h
        subst heq
        trivial
    have accF := returned_accounting i
      (ops ++ List.replicate
        ((((runOps (NewDWRR T count maxTake) ops).queues.getD i []).length
            + maxTake - 1) / maxTake) DwrrOp.step)
      (NewDWRR T count maxTake) h0len h0i hwfF
    rw [h0q, runOps_append, hdrain, enqueuedAt_append,
      enqueuedAt_replicate_step] at accF
    simpa using accF

/-- Witness for C3_dwrr_liveness: 2 queues, maxTake 2, queue 0, the trace
Enqueue(0, [1,2,3]) then one Do(). -/
theorem C3_witness :
    (1 ≤ 2 ∧ 0 < 2
     ∧ ∀ op ∈ ([DwrrOp.enq 0 [1, 2, 3], DwrrOp.step] : List (DwrrOp Nat)),
         op.WF 2)
    ∧ (returnedAt 0 (NewDWRR Nat 2 2) [DwrrOp.enq 0 [1, 2, 3], DwrrOp.step] ++
          (runOps (NewDWRR Nat 2 2)
            [DwrrOp.enq 0 [1, 2, 3], DwrrOp.step]).queues.getD 0 [] =
        enqueuedAt 0 [DwrrOp.enq 0 [1, 2, 3], DwrrOp.step]
       ∧ ((runOps (NewDWRR Nat 2 2)
            [DwrrOp.enq 0 [1, 2, 3], DwrrOp.step]).Do.1.getD 0 []).length ≤ 2
       ∧ returnedAt 0 (NewDWRR Nat 2 2)
          ([DwrrOp.enq 0 [1, 2, 3], DwrrOp.step] ++ List.replicate
            ((((runOps (NewDWRR Nat 2 2)
                [DwrrOp.enq 0 [1, 2, 3], DwrrOp.step]).queues.getD 0 []).length
                + 2 - 1) / 2) DwrrOp.step) =
        enqueuedAt 0 [DwrrOp.enq 0 [1, 2, 3], DwrrOp.step]) :=
  ⟨⟨by decide, by decide, by decide⟩,
   C3_dwrr_liveness 2 2 0 [DwrrOp.enq 0 [1, 2, 3], DwrrOp.step] (by decide)
     (by decide) (by decide)⟩

/-! ## Claim C4 -/

/-- Claim C4 as stated is false: with accumulated controller memory
(here integral = -10^9 from earlier negative deltas), a positive delta can
increase the delay — the update raises it and the clamp caps it at period,
which is above the old delay. -/
theorem C4_counterexample :
    let s : PLLState :=
      { period := 10000000, delay := 5000000, kp := 1, ki := 1, kd := 1,
        integral := -1000000000, lastDelta := 0 }
    0 ≤ s.delay ∧ s.delay ≤ s.period ∧ 0 < (1000000 : Int)
    ∧ ¬ ((pidController s 1000000).delay ≤ s.delay) := by decide

theorem w64_id (x : Int) (h1 : -(2 ^ 63) ≤ x) (h2 : x < 2 ^ 63) :
    w64 x = x := by
  unfold w64
  omega

theorem tdiv100_nonneg (x : Int) (h : 0 ≤ x) :
    0 ≤ x.tdiv 100 ∧ x.tdiv 100 ≤ x := by
  have h1 : (x.tdiv 100).natAbs = x.natAbs / 100 := Int.natAbs_tdiv x 100
  have h2 : x.natAbs / 100 ≤ x.natAbs := Nat.div_le_self _ _
  have h3 : 0 ≤ x.tdiv 100 := Int.tdiv_nonneg h (by norm_num)
  omega

theorem tdiv100_nonpos (x : Int) (h : x ≤ 0) :
    x ≤ x.tdiv 100 ∧ x.tdiv 100 ≤ 0 := by
  have h0 : x.tdiv 100 = -((-x).tdiv 100) := by
    rw [Int.neg_tdiv] at *
    omega
  have h3 : 0 ≤ (-x).tdiv 100 := Int.tdiv_nonneg (by omega) (by norm_num)
  have h1 : ((-x).tdiv 100).natAbs = (-x).natAbs / 100 := Int.natAbs_tdiv (-x) 100
  have h2 : (-x).natAbs / 100 ≤ (-x).natAbs := Nat.div_le_self _ _
  omega

theorem tdiv100_abs_le (x : Int) (hl : -(2 ^ 48) ≤ x) (hu : x ≤ 2 ^ 48) :
    -(2 ^ 48) ≤ x.tdiv 100 ∧ x.tdiv 100 ≤ 2 ^ 48 := by
  rcases le_or_lt 0 x with h | h
  · have := tdiv100_nonneg x h
    omega
  · have := tdiv100_nonpos x (by omega)
    omega

theorem mul_bounds (a b : Int) (hA1 : -(2 ^ 32) ≤ a) (hA2 : a ≤ 2 ^ 32)
    (hb1 : 0 ≤ b) (hb2 : b ≤ 2 ^ 16) :
    -(2 ^ 48) ≤ a * b ∧ a * b ≤ 2 ^ 48 := by
  constructor <;> nlinarith

set_option maxHeartbeats 2000000 in
/-- Claim C4 amended: for a PLL state with no accumulated controller
memory (integral = 0, lastDelta = 0, as after construction), nonnegative
gains bounded by 2^16, period below 2^62, delay in [0, period], and a
delta of magnitude at most 2^32 (all comfortably inside the int64 range,
so no Go overflow occurs): a single pidController(delta) call with
positive delta does not increase the delay, with negative delta does not
decrease it, and the new delay always stays inside [0, period]. -/
theorem C4_pid_amended (s : PLLState) (delta : Int)
    (hd0 : 0 ≤ s.delay) (hd1 : s.delay ≤ s.period) (hp : s.period < 2 ^ 62)
    (hint : s.integral = 0) (hlast : s.lastDelta = 0)
    (hkp0 : 0 ≤ s.kp) (hkp1 : s.kp ≤ 2 ^ 16)
    (hki0 : 0 ≤ s.ki) (hki1 : s.ki ≤ 2 ^ 16)
    (hkd0 : 0 ≤ s.kd) (hkd1 : s.kd ≤ 2 ^ 16)
    (hdl : -(2 ^ 32) ≤ delta) (hdu : delta ≤ 2 ^ 32) :
    (0 < delta → (pidController s delta).delay ≤ s.delay)
    ∧ (delta < 0 → s.delay ≤ (pidController s delta).delay)
    ∧ 0 ≤ (pidController s delta).delay
    ∧ (pidController s delta).delay ≤ s.period := by
  obtain ⟨per, del, kp, ki, kd, intg, ld⟩ := s
  dsimp only at *
  subst hint hlast
  unfold pidController
  dsimp only
  simp only [sub_zero, zero_add]
  have hkpB := mul_bounds delta kp hdl hdu hkp0 hkp1
  have hkiB := mul_bounds delta ki hdl hdu hki0 hki1
  have hkdB := mul_bounds delta kd hdl hdu hkd0 hkd1
  have w1 : w64 (delta * kp) = delta * kp := w64_id _ (by omega) (by omega)
  have w2 : w64 (delta * ki) = delta * ki := w64_id _ (by omega) (by omega)
  have w0 : w64 delta = delta := w64_id _ (by omega) (by omega)
  rw [w1, w2, w0]
  have w3 : w64 (delta * kd) = delta * kd := w64_id _ (by omega) (by omega)
  rw [w3]
  have hP := tdiv100_abs_le (delta * kp) (by omega) (by omega)
  have hI := tdiv100_abs_le (delta * ki) (by omega) (by omega)
  have hD := tdiv100_abs_le (delta * kd) (by omega) (by omega)
  have w4 : w64 ((delta * ki).tdiv 100) = (delta * ki).tdiv 100 :=
    w64_id _ (by omega) (by omega)
  rw [w4]
  have w5 : w64 ((delta * kp).tdiv 100 + (delta * ki).tdiv 100) =
      (delta * kp).tdiv 100 + (delta * ki).tdiv 100 :=
    w64_id _ (by omega) (by omega)
  rw [w5]
  have w6 : w64 ((delta * kp).tdiv 100 + (delta * ki).tdiv 100 +
      (delta * kd).tdiv 100) =
      (delta * kp).tdiv 100 + (delta * ki).tdiv 100 + (delta * kd).tdiv 100 :=
    w64_id _ (by omega) (by omega)
  rw [w6]
  have w7 : w64 (del - ((delta * kp).tdiv 100 + (delta * ki).tdiv 100 +
      (delta * kd).tdiv 100)) =
      del - ((delta * kp).tdiv 100 + (delta * ki).tdiv 100 +
        (delta * kd).tdiv 100) :=
    w64_id _ (by omega) (by omega)
  rw [w7]
  refine ⟨?_, ?_, ?_, ?_⟩
  · intro h
    have s1 := tdiv100_nonneg (delta * kp) (by nlinarith)
    have s2 := tdiv100_nonneg (delta * ki) (by nlinarith)
    have s3 := tdiv100_nonneg (delta * kd) (by nlinarith)
    split_ifs <;> omega
  · intro h
    have s1 := tdiv100_nonpos (delta * kp) (by nlinarith)
    have s2 := tdiv100_nonpos (delta * ki) (by nlinarith)
    have s3 := tdiv100_nonpos (delta * kd) (by nlinarith)
    split_ifs <;> omega
  · split_ifs <;> omega
  · split_ifs <;> omega

/-- Witness for C4_pid_amended: the spec's own monotonicity scenario,
kp = ki = kd = 1, period = delay = 10 ms, delta = +5 ms. -/
theorem C4_witness :
    let s : PLLState :=
      { period := 10000000, delay := 10000000, kp := 1, ki := 1, kd := 1,
        integral := 0, lastDelta := 0 }
    (0 ≤ s.delay ∧ s.delay ≤ s.period ∧ s.period < 2 ^ 62
     ∧ s.integral = 0 ∧ s.lastDelta = 0
     ∧ 0 ≤ s.kp ∧ s.kp ≤ 2 ^ 16 ∧ 0 ≤ s.ki ∧ s.ki ≤ 2 ^ 16
     ∧ 0 ≤ s.kd ∧ s.kd ≤ 2 ^ 16
     ∧ -(2 ^ 32) ≤ (5000000 : Int) ∧ (5000000 : Int) ≤ 2 ^ 32)
    ∧ ((0 < (5000000 : Int) → (pidController s 5000000).delay ≤ s.delay)
       ∧ ((5000000 : Int) < 0 → s.delay ≤ (pidController s 5000000).delay)
       ∧ 0 ≤ (pidController s 5000000).delay
       ∧ (pidController s 5000000).delay ≤ s.period) :=
  ⟨by decide,
   C4_pid_amended _ 5000000 (by decide) (by decide) (by decide) (by decide)
     (by decide) (by decide) (by decide) (by decide) (by decide) (by decide)
     (by decide) (by decide) (by decide)⟩
